import Mathlib

/-!
Verification development for the freelance_hub scraping pipeline
(`module_A`: `extractors.py`, `pagination.py`, `scraper.py`, `constants.py`).

The Python code is shallowly embedded: pure computations become Lean
functions; the Selenium driver is abstracted as explicit data (cards with
optional titles and anchor href attributes, detail pages, window-handle
state, oracles for pagination primitives); Python exceptions become
`Except Unit`.
-/

namespace FreelanceHub

/-! ### String helpers modelling Python library functions -/

/-- Character-list membership test of a character-list pattern at the head. -/
def charsPre : List Char → List Char → Bool
  | [], _ => true
  | _ :: _, [] => false
  | p :: ps, c :: cs => p == c && charsPre ps cs

/-- Model of Python `str.strip()`: leading and trailing whitespace removed. -/
def pyStrip (s : String) : String :=
  String.mk (((s.toList.dropWhile Char.isWhitespace).reverse.dropWhile
    Char.isWhitespace).reverse)

/-- Model of Python `int(s)` on strings: surrounding whitespace stripped,
optional single sign, then at least one decimal digit; `none` models
`ValueError`.  (Underscore digit separators are not modelled.) -/
def digitsToNat : List Char → Option Nat
  | [] => none
  | cs =>
    if cs.all Char.isDigit then
      some (cs.foldl (fun a c => a * 10 + (c.toNat - '0'.toNat)) 0)
    else none

/-- Model of Python `int(·)` applied to a query-string value. -/
def pyInt (s : String) : Option Int :=
  match (pyStrip s).toList with
  | '-' :: rest => (digitsToNat rest).map (fun n => -(n : Int))
  | '+' :: rest => (digitsToNat rest).map (fun n => (n : Int))
  | cs => (digitsToNat cs).map (fun n => (n : Int))

/-- Split a URL's character list after the `://` separator, returning the
scheme part (separator included) and the remainder. -/
def splitScheme : List Char → Option (List Char × List Char)
  | [] => none
  | ':' :: '/' :: '/' :: rest => some ([':', '/', '/'], rest)
  | c :: cs => (splitScheme cs).map (fun pr => (c :: pr.1, pr.2))

/-- Characters up to (excluding) the first `/`. -/
def takeUntilSlash : List Char → List Char
  | [] => []
  | c :: cs => if c = '/' then [] else c :: takeUntilSlash cs

/-- The `scheme://netloc` part of an absolute URL (empty if no scheme). -/
def schemeNetloc (url : String) : String :=
  match splitScheme url.toList with
  | none => ""
  | some (pre, rest) => String.mk (pre ++ takeUntilSlash rest)

/-- Keep the characters up to and including the last `/`. -/
def dropAfterLastSlash (cs : List Char) : List Char :=
  (cs.reverse.dropWhile (fun c => c ≠ '/')).reverse

/-- Model of `urllib.parse.urljoin(base, rel)` restricted to the URL shapes
this program passes it: empty `rel` returns `base`; an absolute `http(s)`
URL wins; a root-relative path replaces the base path; any other relative
path is appended to the base's directory (the base's query and fragment
being dropped first).  Dot-segment normalisation and scheme-relative `//`
references are outside the modelled subset. -/
def pyUrljoin (base rel : String) : String :=
  if rel = "" then base
  else if charsPre "http://".toList rel.toList || charsPre "https://".toList rel.toList then
    rel
  else if rel.toList.headD ' ' = '/' then schemeNetloc base ++ rel
  else
    String.mk
      (dropAfterLastSlash (base.toList.takeWhile (fun c => c ≠ '?' ∧ c ≠ '#'))) ++ rel

/-! ### `constants.py`: the two URL-shape regular expressions

`PATTERN_ENTRY  = ^https://freelance-hub\.jp/entry_signup/input/project/\d+/?$`
`PATTERN_DETAIL = ^https://freelance-hub\.jp/project/\d+/?$`
-/

/-- `\d+/?$`: one or more digits, then an optional single `/`, then the end. -/
def digitsOptSlash (cs : List Char) : Bool :=
  let ds := cs.takeWhile Char.isDigit
  let rest := cs.dropWhile Char.isDigit
  decide (ds ≠ []) && (decide (rest = []) || decide (rest = ['/']))

/-- Model of `PATTERN_ENTRY.match` (the regex is fully anchored, so `match`
is a full-string match). -/
def pattern_entry_match (s : String) : Bool :=
  let p := "https://freelance-hub.jp/entry_signup/input/project/".toList
  charsPre p s.toList && digitsOptSlash (s.toList.drop p.length)

/-- Model of `PATTERN_DETAIL.match`. -/
def pattern_detail_match (s : String) : Bool :=
  let p := "https://freelance-hub.jp/project/".toList
  charsPre p s.toList && digitsOptSlash (s.toList.drop p.length)

/-! ### `extractors.py` -/

/-- The absolute URL the loop body of `find_entry_in_card` computes for one
anchor: `raw = (a.get_attribute("href") or "").strip()` then
`urljoin(base_url, raw)`.  An anchor is its optional `href` attribute. -/
def resolveAnchor (base : String) (a : Option String) : String :=
  pyUrljoin base (pyStrip (a.getD ""))

/-- The scanning loop of `find_entry_in_card`, with the `detail` variable as
accumulator: first anchor matching `PATTERN_ENTRY` returns immediately;
while no entry is found, the first `PATTERN_DETAIL` match is retained. -/
def findEntryLoop (base : String) : List (Option String) → Option String →
    Option String × Option String
  | [], detail => (none, detail)
  | a :: rest, detail =>
    let href := resolveAnchor base a
    if pattern_entry_match href then (some href, detail)
    else if detail.isNone && pattern_detail_match href then
      findEntryLoop base rest (some href)
    else findEntryLoop base rest detail

/-- Model of `find_entry_in_card(card, base_url)`: the card is the DOM-order
list of its anchors' `href` attributes (those matched by
`SEL_ANCHORS_IN_CARD`), `none` modelling a missing attribute. -/
def find_entry_in_card (anchors : List (Option String)) (base : String) :
    Option String × Option String :=
  findEntryLoop base anchors none

/-- A detail page as `resolve_entry_from_detail` observes it:
`timeout = true` models `wait.until(EC.presence_of_element_located(...))`
raising `TimeoutException`; `anchors` are the `href` attributes of the
elements matched by `a[href*='/entry_signup/input/project/']`, in DOM
order. -/
structure DetailPage where
  timeout : Bool
  anchors : List (Option String)
  deriving DecidableEq

/-- The anchor scan of `resolve_entry_from_detail`: first `href`, absolutised
against `detail_url`, that matches `PATTERN_ENTRY`. -/
def scanEntryAnchors (detailUrl : String) : List (Option String) → Option String
  | [] => none
  | a :: rest =>
    let href := resolveAnchor detailUrl a
    if pattern_entry_match href then some href else scanEntryAnchors detailUrl rest

/-- Model of `resolve_entry_from_detail(driver, wait, detail_url)` as the
value the `try` body produces: the wait raising propagates (`.error ()`,
there is no `except` clause — only a `finally`); otherwise the anchors are
scanned and the first application match (or `none`) is returned. -/
def resolve_entry_from_detail (page : DetailPage) (detailUrl : String) :
    Except Unit (Option String) :=
  if page.timeout then Except.error ()
  else Except.ok (scanEntryAnchors detailUrl page.anchors)

/-- The driver's window state: the ordered list of window handles and the
handle of the focused window. -/
structure BrowserState where
  handles : List Nat
  focused : Nat
  deriving DecidableEq

/-- A window handle not yet in use. -/
def freshHandle (s : BrowserState) : Nat :=
  s.handles.foldr max 0 + 1

/-- Model of the full `resolve_entry_from_detail`, window handling included:
record the original handle, `window.open` the detail URL and switch to the
new (last) handle, run the `try` body, then — on every exit path, this being
the shallow embedding of `try/finally` — close the focused window and switch
back to the original handle. Returns the body's outcome and the final
window state. -/
def resolveRun (page : DetailPage) (detailUrl : String) (s : BrowserState) :
    Except Unit (Option String) × BrowserState :=
  let original := s.focused
  let newHandle := freshHandle s
  let s1 : BrowserState := ⟨s.handles ++ [newHandle], newHandle⟩
  let result := resolve_entry_from_detail page detailUrl
  let s2 : BrowserState := ⟨s1.handles.erase s1.focused, original⟩
  (result, s2)

/-! ### `scraper.py` -/

/-- One listing card as `collect_projects` observes it: `title = none`
models `card.find_element(By.CSS_SELECTOR, SEL_TITLE)` raising (no title
element); `anchors` are the card's anchor `href` attributes as passed to
`find_entry_in_card`. -/
structure Card where
  title : Option String
  anchors : List (Option String)
  deriving DecidableEq

/-- A produced record `{"title": ..., "link": ...}`. -/
structure Project where
  title : String
  link : Option String
  deriving DecidableEq

/-- The site's detail pages, indexed by detail URL. -/
def DetailSite := String → DetailPage

/-- Model of `collect_projects` over the current page's cards: a failing
title read skips the card (`continue`); otherwise classify the anchors, and
when no application URL was found but a detail URL was, resolve it via
`resolve_entry_from_detail`, any exception being caught and the link set to
`None`; the record is then appended unconditionally. -/
def collect_projects (dp : DetailSite) (base : String) : List Card → List Project
  | [] => []
  | c :: cs =>
    match c.title with
    | none => collect_projects dp base cs
    | some t =>
      let r := find_entry_in_card c.anchors base
      let link : Option String :=
        match r.1, r.2 with
        | some e, _ => some e
        | none, some d =>
          match resolve_entry_from_detail (dp d) d with
          | Except.ok v => v
          | Except.error _ => none
        | none, none => none
      ⟨pyStrip t, link⟩ :: collect_projects dp base cs

/-- The deduplication key `(p.get("title", ""), p.get("link", ""))` (both
keys are always present in the produced dicts). -/
def projKey (p : Project) : String × Option String :=
  (p.title, p.link)

/-- The inner `for p in projects` loop of `collect_all_projects`: append `p`
to the accumulator and record its key iff the key is unseen. -/
def insertAll : List Project → List Project × List (String × Option String) →
    List Project × List (String × Option String)
  | [], st => st
  | p :: ps, (acc, seen) =>
    if projKey p ∈ seen then insertAll ps (acc, seen)
    else insertAll ps (acc ++ [p], projKey p :: seen)

/-- The `if max_pages and page_count >= max_pages` test (`max_pages` is
falsy when `None` or `0`). -/
def maxReached (mp : Option Nat) (pc : Nat) : Bool :=
  match mp with
  | none => false
  | some m => decide (m ≠ 0) && decide (m ≤ pc)

/-- The `while True` loop of `collect_all_projects` over a site modelled as
the list of its listing pages (each a card list): increment the page
counter, extract the current page, fold the results into the deduplicating
accumulator, stop when `max_pages` is reached, else advance —
`goto_next_page` succeeding exactly when a further page exists — and loop.
Returns `((accumulator, seen), extraction count, advance count)`; the fuel
argument only bounds the recursion and is chosen large enough at the top
level. -/
def collectAllLoop (site : List (List Card)) (dp : DetailSite) (base : String)
    (mp : Option Nat) :
    Nat → Nat → Nat → List Project × List (String × Option String) →
    (List Project × List (String × Option String)) × Nat × Nat
  | 0, _, _, st => (st, 0, 0)
  | fuel + 1, idx, pc0, st =>
    let pc := pc0 + 1
    let ps := collect_projects dp base ((site.get? idx).getD [])
    let st2 := insertAll ps st
    if maxReached mp pc then (st2, 1, 0)
    else if idx + 1 < site.length then
      let r := collectAllLoop site dp base mp fuel (idx + 1) pc st2
      (r.1, r.2.1 + 1, r.2.2 + 1)
    else (st2, 1, 0)

/-- Model of `collect_all_projects(max_pages)`: run the loop from the first
page with empty accumulator and seen-set. -/
def collect_all_projects (site : List (List Card)) (dp : DetailSite)
    (base : String) (mp : Option Nat) : List Project :=
  (collectAllLoop site dp base mp (site.length + 1) 0 0 ([], [])).1.1

/-- The loop's instrumentation: how many page extractions and how many
successful pagination advances a run performs. -/
def collectStats (site : List (List Card)) (dp : DetailSite) (base : String)
    (mp : Option Nat) : Nat × Nat :=
  (collectAllLoop site dp base mp (site.length + 1) 0 0 ([], [])).2

/-- First-seen deduplication of a project stream relative to an initial
seen-set: each project is kept at the position of its first occurrence,
later duplicates are dropped. -/
def firstSeenDedup : List Project → List (String × Option String) → List Project
  | [], _ => []
  | p :: ps, seen =>
    if projKey p ∈ seen then firstSeenDedup ps seen
    else p :: firstSeenDedup ps (projKey p :: seen)

/-- The seen-set after scanning a project stream. -/
def seenAfter : List Project → List (String × Option String) →
    List (String × Option String)
  | [], seen => seen
  | p :: ps, seen =>
    if projKey p ∈ seen then seenAfter ps seen
    else seenAfter ps (projKey p :: seen)

/-- The concatenated stream of projects the loop extracts, page by page,
mirroring the control flow of `collectAllLoop`. -/
def visitedStream (site : List (List Card)) (dp : DetailSite) (base : String)
    (mp : Option Nat) : Nat → Nat → Nat → List Project
  | 0, _, _ => []
  | fuel + 1, idx, pc0 =>
    let pc := pc0 + 1
    let ps := collect_projects dp base ((site.get? idx).getD [])
    if maxReached mp pc then ps
    else if idx + 1 < site.length then
      ps ++ visitedStream site dp base mp fuel (idx + 1) pc
    else ps

/-- The stream of projects a full `collect_all_projects` run extracts. -/
def collectedStream (site : List (List Card)) (dp : DetailSite) (base : String)
    (mp : Option Nat) : List Project :=
  visitedStream site dp base mp (site.length + 1) 0 0

/-! ### `pagination.py` -/

/-- A parsed URL, at the granularity of `urllib.parse.urlparse` /
`urlunparse`, the query held as its decoded key-value pairs in order (the
percent-encoding layer of `parse_qs` / `urlencode` is the identity on the
values used here and is not modelled). -/
structure PyUrl where
  scheme : String
  netloc : String
  path : String
  params : String
  query : List (String × String)
  fragment : String
  deriving DecidableEq

/-- `parse_qs` value insertion: append the value to an existing key's list,
else add the key at the end (Python dicts preserve insertion order). -/
def addQS (acc : List (String × List String)) (k v : String) :
    List (String × List String) :=
  if acc.any (fun p => p.1 = k) then
    acc.map (fun p => if p.1 = k then (p.1, p.2 ++ [v]) else p)
  else acc ++ [(k, [v])]

/-- The accumulating pass of `parse_qs`: blank values are dropped
(`keep_blank_values` defaults to false), the rest grouped by key. -/
def parseQSAux : List (String × String) → List (String × List String) →
    List (String × List String)
  | [], acc => acc
  | (k, v) :: rest, acc =>
    if v = "" then parseQSAux rest acc
    else parseQSAux rest (addQS acc k v)

/-- Model of `urllib.parse.parse_qs` on decoded query pairs. -/
def parse_qs (pairs : List (String × String)) : List (String × List String) :=
  parseQSAux pairs []

/-- Python dict assignment `qs[k] = v`: replace in place if the key exists,
else append. -/
def setKey (qs : List (String × List String)) (k : String) (v : List String) :
    List (String × List String) :=
  if qs.any (fun p => p.1 = k) then
    qs.map (fun p => if p.1 = k then (p.1, v) else p)
  else qs ++ [(k, v)]

/-- The query rewrite of `goto_next_page`'s strategy C: `parse_qs` the
query, read `page` (default `1` when absent; `int(...)` failure also gives
`1`), increment, store `[str(next_page)]`, then `urlencode` the dict taking
each value list's head. -/
def nextPageQuery (query : List (String × String)) : List (String × String) :=
  let qs := parse_qs query
  let page : Int :=
    match qs.find? (fun p => p.1 = "page") with
    | some (_, v :: _) => (pyInt v).getD 1
    | _ => 1
  let qs2 := setKey qs "page" [toString (page + 1)]
  qs2.map (fun p => (p.1, p.2.headD ""))

/-- Strategy C's `urlunparse` step: every component of the current URL is
passed through unchanged except the rewritten query. -/
def rewriteNextUrl (u : PyUrl) : PyUrl :=
  { u with query := nextPageQuery u.query }

/-- An element handle on the listing page. -/
def El := Nat

/-- The pagination primitives as oracles that may raise (`.error ()`): what
`goto_next_page`, `_click_if_visible` and `wait_for_page_change` call on the
driver.  `clickEl` and `jsClick` model `el.click()` and the script click;
`waitChange` models `wait_for_page_change` (whose own internal waits can
raise through `driver.current_url` / `execute_script`). -/
structure PagEnv where
  findEls : String → Except Unit (List El)
  anchorsAll : Except Unit (List El)
  isDisplayed : El → Except Unit Bool
  scrollScript : El → Except Unit Unit
  clickEl : El → Except Unit Unit
  jsClick : El → Except Unit Unit
  textOf : El → Except Unit String
  waitChange : Except Unit Unit
  currentUrl : Except Unit PyUrl
  navigate : PyUrl → Except Unit Unit

/-- Model of `_click_if_visible`: scroll-into-view then `.click()`, falling
back to a script click; every exception is caught internally, the result is
a plain boolean. -/
def click_if_visible (env : PagEnv) (el : El) : Bool :=
  match (do env.scrollScript el; env.clickEl el : Except Unit Unit) with
  | Except.ok _ => true
  | Except.error _ =>
    match env.jsClick el with
    | Except.ok _ => true
    | Except.error _ => false

/-- The `for el in els` body of strategy A (inside that selector's `try`):
first displayed element that clicks returns `True` after the settlement
wait. -/
def stratAScan (env : PagEnv) : List El → Except Unit Bool
  | [] => Except.ok false
  | el :: rest => do
    let d ← env.isDisplayed el
    if d && click_if_visible env el then do
      env.waitChange
      pure true
    else stratAScan env rest

/-- The raw `try` body of strategy A for one candidate selector. -/
def stratASel (env : PagEnv) (sel : String) : Except Unit Bool := do
  let els ← env.findEls sel
  stratAScan env els

/-- The `candidates` selector list of `goto_next_page`. -/
def candidates : List String :=
  ["a[rel='next']",
   "a[aria-label='Next']",
   "a[aria-label='次へ']",
   "button[aria-label='Next']",
   "button[aria-label='次へ']",
   ".Pagination a[rel='next']",
   ".Pagination a[aria-label='Next']",
   ".Pagination a[aria-label='次へ']",
   "a.Pagination_NextLink",
   "a.Pagination_Link.Pagination_NextLink"]

/-- The accepted "next" labels of strategy B. -/
def nextLabels : List String :=
  ["次へ", "Next", "次のページ", "Next »", ">", "›"]

/-- The anchor scan of strategy B (inside its single `try`): anchors whose
stripped text is an accepted label are click candidates; a displayed one
that clicks returns `True` after the settlement wait. -/
def stratBScan (env : PagEnv) : List El → Except Unit Bool
  | [] => Except.ok false
  | a :: rest => do
    let t ← env.textOf a
    if pyStrip t ∈ nextLabels then do
      let d ← env.isDisplayed a
      if d && click_if_visible env a then do
        env.waitChange
        pure true
      else stratBScan env rest
    else stratBScan env rest

/-- The raw `try` body of strategy B. -/
def stratBRaw (env : PagEnv) : Except Unit Bool := do
  let anchors ← env.anchorsAll
  stratBScan env anchors

/-- The raw `try` body of strategy C: read and rewrite the current URL; if
it changed, navigate, settle and return `True`, else fall through. -/
def stratCRaw (env : PagEnv) : Except Unit Bool := do
  let current ← env.currentUrl
  let newUrl := rewriteNextUrl current
  if newUrl ≠ current then do
    env.navigate newUrl
    env.waitChange
    pure true
  else pure false

/-- The embedding of one `try: ... except Exception: pass` block in the
strategy chain: `return True` inside the `try` exits the whole function;
completing without returning, or raising, falls through to the
continuation. -/
def pyTry (x : Except Unit Bool) (k : Except Unit Bool) : Except Unit Bool :=
  match x with
  | Except.ok true => Except.ok true
  | Except.ok false => k
  | Except.error _ => k

/-- The ordered strategy attempts of `goto_next_page`: one `try` block per
candidate selector of strategy A, then strategy B's block, then strategy
C's block. -/
def strategyAttempts (env : PagEnv) : List (Except Unit Bool) :=
  candidates.map (stratASel env) ++ [stratBRaw env, stratCRaw env]

/-- Model of `goto_next_page(driver, wait)`: the chained `try` blocks, the
function ending in `return False` when every attempt fell through. -/
def goto_next_page (env : PagEnv) : Except Unit Bool :=
  (strategyAttempts env).foldr pyTry (Except.ok false)

/-- A detail site on which every resolution attempt times out; used as a
concrete environment in counterexamples and witnesses. -/
def emptySite : DetailSite := fun _ => ⟨true, []⟩

/-! ## Theorems -/

/-- The first component of the classifier loop is the first anchor whose
resolved URL matches the application pattern, whatever detail URL has been
accumulated. -/
theorem findEntryLoop_fst (base : String) :
    ∀ (anchors : List (Option String)) (d : Option String),
      (findEntryLoop base anchors d).1 =
        (anchors.map (resolveAnchor base)).find? pattern_entry_match := by
  intro anchors
  induction anchors with
  | nil => intro d; simp [findEntryLoop, List.find?]
  | cons a rest ih =>
    intro d
    simp only [findEntryLoop, List.map_cons, List.find?]
    by_cases h : pattern_entry_match (resolveAnchor base a) = true
    · simp [h]
    · simp only [Bool.not_eq_true] at h
      simp only [h]
      by_cases h2 : (d.isNone && pattern_detail_match (resolveAnchor base a)) = true
      · simp [h2, ih]
      · simp only [Bool.not_eq_true] at h2
        simp [h2, ih]

/-- Once a detail URL has been accumulated, the classifier loop never
replaces it. -/
theorem findEntryLoop_snd_some (base : String) :
    ∀ (anchors : List (Option String)) (v : String),
      (findEntryLoop base anchors (some v)).2 = some v := by
  intro anchors
  induction anchors with
  | nil => intro v; simp [findEntryLoop]
  | cons a rest ih =>
    intro v
    simp only [findEntryLoop]
    by_cases h : pattern_entry_match (resolveAnchor base a) = true
    · simp [h]
    · simp only [Bool.not_eq_true] at h
      simp [h, Option.isNone, ih]

/-- Starting from no accumulated detail URL, the second component of the
classifier loop is the first detail-pattern match among the anchors that
precede the first application-pattern match. -/
theorem findEntryLoop_snd_none (base : String) :
    ∀ anchors : List (Option String),
      (findEntryLoop base anchors none).2 =
        ((anchors.map (resolveAnchor base)).takeWhile
          (fun h => !pattern_entry_match h)).find? pattern_detail_match := by
  intro anchors
  induction anchors with
  | nil => simp [findEntryLoop, List.find?]
  | cons a rest ih =>
    simp only [findEntryLoop, List.map_cons, List.takeWhile]
    by_cases h : pattern_entry_match (resolveAnchor base a) = true
    · simp [h, List.find?]
    · simp only [Bool.not_eq_true] at h
      by_cases h2 : pattern_detail_match (resolveAnchor base a) = true
      · simp [h, h2, List.find?, findEntryLoop_snd_some]
      · simp only [Bool.not_eq_true] at h2
        simp [h, h2, List.find?, ih]

/-- C2 counterexample: a card whose detail-pattern anchor precedes its
application-pattern anchor.  `find_entry_in_card` returns the application
URL but also the already-accumulated detail URL — not `detailUrl = none` as
the claim states. -/
theorem find_entry_detail_not_cleared :
    find_entry_in_card
        [some "https://freelance-hub.jp/project/11/",
         some "https://freelance-hub.jp/entry_signup/input/project/22/"]
        "https://freelance-hub.jp/" =
      (some "https://freelance-hub.jp/entry_signup/input/project/22/",
       some "https://freelance-hub.jp/project/11/") ∧
    (find_entry_in_card
        [some "https://freelance-hub.jp/project/11/",
         some "https://freelance-hub.jp/entry_signup/input/project/22/"]
        "https://freelance-hub.jp/").2 ≠ none := by
  constructor
  · decide
  · decide

/-- C2 amended: for every card and base URL, the returned `applicationUrl`
is the first anchor (in DOM order) whose resolved URL matches the
application pattern — the application link always wins, in either order —
while the returned `detailUrl` is the first detail-pattern match among the
anchors scanned before that application match (`none` only when no detail
anchor precedes it), not unconditionally `none`. -/
theorem find_entry_characterization (anchors : List (Option String))
    (base : String) :
    (find_entry_in_card anchors base).1 =
      (anchors.map (resolveAnchor base)).find? pattern_entry_match ∧
    (find_entry_in_card anchors base).2 =
      ((anchors.map (resolveAnchor base)).takeWhile
        (fun h => !pattern_entry_match h)).find? pattern_detail_match := by
  exact ⟨findEntryLoop_fst base anchors none, findEntryLoop_snd_none base anchors⟩

/-- C8 counterexample: an anchor with a missing `href` resolves via
`urljoin(base_url, "")` to the base URL itself; when the base URL matches
the detail pattern, that anchor does determine the returned `detailUrl`,
contradicting the claim's "whatever the value of baseUrl". -/
theorem empty_href_can_match_base :
    find_entry_in_card [none] "https://freelance-hub.jp/project/11/" =
      (none, some "https://freelance-hub.jp/project/11/") := by
  decide

/-- Under a base URL matching neither pattern, an anchor stripping to an
empty `href` passes through the classifier loop without effect. -/
theorem findEntryLoop_skip_empty (base : String) (a : Option String)
    (ha : pyStrip (a.getD "") = "")
    (hbe : pattern_entry_match base = false)
    (hbd : pattern_detail_match base = false) :
    ∀ (xs ys : List (Option String)) (d : Option String),
      findEntryLoop base (xs ++ a :: ys) d = findEntryLoop base (xs ++ ys) d := by
  have hres : resolveAnchor base a = base := by
    simp [resolveAnchor, ha, pyUrljoin]
  intro xs
  induction xs with
  | nil =>
    intro ys d
    simp [findEntryLoop, hres, hbe, hbd]
  | cons x rest ih =>
    intro ys d
    simp only [List.cons_append, findEntryLoop]
    by_cases h : pattern_entry_match (resolveAnchor base x) = true
    · simp [h]
    · simp only [Bool.not_eq_true] at h
      by_cases h2 : (d.isNone && pattern_detail_match (resolveAnchor base x)) = true
      · simp [h, h2, ih]
      · simp only [Bool.not_eq_true] at h2
        simp [h, h2, ih]

/-- C8 amended: anchors whose `href` is missing, empty, or whitespace-only
resolve to `baseUrl` itself; they are skipped — never determining
`applicationUrl` or `detailUrl` — provided `baseUrl` matches neither URL
pattern (as holds for listing-page URLs); a `baseUrl` that itself matches a
pattern can be picked up through such an anchor. -/
theorem find_entry_skips_empty_href (base : String) (a : Option String)
    (xs ys : List (Option String))
    (ha : pyStrip (a.getD "") = "")
    (hbe : pattern_entry_match base = false)
    (hbd : pattern_detail_match base = false) :
    find_entry_in_card (xs ++ a :: ys) base = find_entry_in_card (xs ++ ys) base := by
  exact findEntryLoop_skip_empty base a ha hbe hbd xs ys none

/-- C8 witness: on the real listing URL, a card with a missing-`href` anchor
in front of a detail anchor classifies exactly like the card without it. -/
theorem find_entry_skips_empty_href_witness :
    find_entry_in_card [none, some "https://freelance-hub.jp/project/5/"]
        "https://freelance-hub.jp/project/skill/7/?page=1" =
      find_entry_in_card [some "https://freelance-hub.jp/project/5/"]
        "https://freelance-hub.jp/project/skill/7/?page=1" := by
  exact find_entry_skips_empty_href
    "https://freelance-hub.jp/project/skill/7/?page=1" none
    [] [some "https://freelance-hub.jp/project/5/"]
    (by decide) (by decide) (by decide)

/-- C1 counterexample: a titled card none of whose anchors matches either
pattern — classification `(none, none)` — is not skipped by
`collect_projects`: the loop appends `{"title": title, "link": None}`
unconditionally after a successful title read, so a Project with
`link = none` is produced by direct classifier failure. -/
theorem titled_card_without_links_not_skipped :
    find_entry_in_card [some "https://unrelated.example/x"]
        "https://freelance-hub.jp/project/skill/7/?page=1" = (none, none) ∧
    collect_projects emptySite "https://freelance-hub.jp/project/skill/7/?page=1"
        [⟨some "T", [some "https://unrelated.example/x"]⟩] =
      [⟨"T", none⟩] := by
  constructor
  · decide
  · decide

/-- C1 amended: a card with a readable title whose classification result is
`(none, none)` is not skipped; `collect_projects` emits for it a Project
with the stripped title and `link = none`, ahead of the remaining cards'
output. -/
theorem collect_appends_link_none (dp : DetailSite) (base : String) (c : Card)
    (cs : List Card) (t : String) (ht : c.title = some t)
    (hf : find_entry_in_card c.anchors base = (none, none)) :
    collect_projects dp base (c :: cs) =
      ⟨pyStrip t, none⟩ :: collect_projects dp base cs := by
  simp [collect_projects, ht, hf]

/-- C1 witness: the amended behaviour at a concrete titled, link-less card. -/
theorem collect_appends_link_none_witness :
    collect_projects emptySite "https://freelance-hub.jp/project/skill/7/?page=1"
        [⟨some " A ", [some "https://unrelated.example/y"]⟩] =
      [⟨"A", none⟩] := by
  rw [collect_appends_link_none emptySite
    "https://freelance-hub.jp/project/skill/7/?page=1"
    ⟨some " A ", [some "https://unrelated.example/y"]⟩ [] " A " rfl (by decide)]
  decide

/-- C3 counterexample: when the contextual wait times out,
`resolve_entry_from_detail` does not return `none` — the `TimeoutException`
propagates out of the function (there is no `except` clause), so the result
is an exception, not `Except.ok none`. -/
theorem resolve_detail_timeout_raises :
    resolve_entry_from_detail ⟨true, []⟩ "https://freelance-hub.jp/project/1/" =
      Except.error () ∧
    (Except.error () : Except Unit (Option String)) ≠ Except.ok none := by
  exact ⟨rfl, fun h => by cases h⟩

/-- When no anchor on the page resolves to an application-pattern URL, the
anchor scan of `resolve_entry_from_detail` yields `none`. -/
theorem scanEntryAnchors_eq_none (d : String) :
    ∀ anchors : List (Option String),
      (∀ a ∈ anchors, pattern_entry_match (resolveAnchor d a) = false) →
      scanEntryAnchors d anchors = none := by
  intro anchors
  induction anchors with
  | nil => intro _; simp [scanEntryAnchors]
  | cons a rest ih =>
    intro h
    have ha := h a (by simp)
    simp only [scanEntryAnchors, ha]
    exact ih (fun x hx => h x (by simp [hx]))

/-- C3 amended: `resolve_entry_from_detail` returns `none` when no anchor on
the detail page matches the application pattern, but on a wait timeout it
raises; totality is restored one level up, where `collect_projects` catches
the exception and records `link = none`. -/
theorem resolve_detail_none_or_raises (anchors : List (Option String))
    (d : String)
    (h : ∀ a ∈ anchors, pattern_entry_match (resolveAnchor d a) = false) :
    resolve_entry_from_detail ⟨false, anchors⟩ d = Except.ok none ∧
    resolve_entry_from_detail ⟨true, anchors⟩ d = Except.error () := by
  refine ⟨?_, rfl⟩
  simp [resolve_entry_from_detail, scanEntryAnchors_eq_none d anchors h]

/-- C3 witness: the amended behaviour on a concrete anchor-free detail
page. -/
theorem resolve_detail_none_or_raises_witness :
    resolve_entry_from_detail ⟨false, []⟩ "https://freelance-hub.jp/project/1/" =
      Except.ok none ∧
    resolve_entry_from_detail ⟨true, []⟩ "https://freelance-hub.jp/project/1/" =
      Except.error () := by
  exact resolve_detail_none_or_raises [] "https://freelance-hub.jp/project/1/"
    (by simp)

/-- Every element of a list is bounded by its `max` fold. -/
theorem le_foldr_max : ∀ (l : List Nat), ∀ x ∈ l, x ≤ l.foldr max 0 := by
  intro l
  induction l with
  | nil => simp
  | cons a rest ih =>
    intro x hx
    rcases List.mem_cons.mp hx with h | h
    · subst h; exact Nat.le_max_left _ _
    · exact Nat.le_trans (ih x h) (Nat.le_max_right _ _)

/-- The freshly opened window handle is not among the existing handles. -/
theorem freshHandle_not_mem (s : BrowserState) : freshHandle s ∉ s.handles := by
  intro h
  have := le_foldr_max s.handles _ h
  simp only [freshHandle] at this
  omega

/-- Closing the window that was appended last restores the handle list. -/
theorem erase_append_last :
    ∀ (l : List Nat) (n : Nat), n ∉ l → (l ++ [n]).erase n = l := by
  intro l
  induction l with
  | nil => intro n _; simp
  | cons x rest ih =>
    intro n hn
    have hxn : x ≠ n := fun h => hn (by simp [h])
    simp only [List.cons_append, List.erase_cons]
    simp [beq_iff_eq, hxn, ih n (fun h => hn (by simp [h]))]

/-- C4: on every exit path of `resolve_entry_from_detail` — normal return of
a URL, return of `none`, or the wait's exception propagating — the
`finally` block closes the secondary window and refocuses the original one:
the run returns the body's outcome with the window state exactly as it was
on entry. -/
theorem resolveRun_restores_state (page : DetailPage) (d : String)
    (s : BrowserState) :
    resolveRun page d s = (resolve_entry_from_detail page d, s) := by
  cases s with
  | mk hs f =>
    simp only [resolveRun]
    rw [erase_append_last hs (freshHandle ⟨hs, f⟩) (freshHandle_not_mem ⟨hs, f⟩)]

/-- C9: a card whose title element is absent (the title read raises) is
skipped by `collect_projects` without aborting the page: the result over
any card sequence containing it equals the result over the same sequence
with that card removed. -/
theorem collect_skips_titleless (dp : DetailSite) (base : String) :
    ∀ (cs1 : List Card) (c : Card) (cs2 : List Card), c.title = none →
      collect_projects dp base (cs1 ++ c :: cs2) =
        collect_projects dp base (cs1 ++ cs2) := by
  intro cs1
  induction cs1 with
  | nil =>
    intro c cs2 hc
    simp [collect_projects, hc]
  | cons x rest ih =>
    intro c cs2 hc
    simp only [List.cons_append, collect_projects]
    cases hx : x.title with
    | none => exact ih c cs2 hc
    | some t =>
      simp only [List.append_eq]
      rw [ih c cs2 hc]

/-- C9 witness: a concrete page where the title-less first card is dropped
and the remaining card is still processed. -/
theorem collect_skips_titleless_witness :
    collect_projects emptySite "https://freelance-hub.jp/project/skill/7/"
        [⟨none, [some "https://x.example/"]⟩, ⟨some "A", []⟩] =
      collect_projects emptySite "https://freelance-hub.jp/project/skill/7/"
        [⟨some "A", []⟩] := by
  exact collect_skips_titleless emptySite "https://freelance-hub.jp/project/skill/7/"
    [] ⟨none, [some "https://x.example/"]⟩ [⟨some "A", []⟩] rfl

/-- The seen-set accumulation splits over list concatenation. -/
theorem seenAfter_append :
    ∀ (xs ys : List Project) (seen : List (String × Option String)),
      seenAfter (xs ++ ys) seen = seenAfter ys (seenAfter xs seen) := by
  intro xs
  induction xs with
  | nil => intro ys seen; simp [seenAfter]
  | cons p rest ih =>
    intro ys seen
    by_cases h : projKey p ∈ seen
    · simp [seenAfter, h, ih]
    · simp [seenAfter, h, ih]

/-- First-seen deduplication splits over list concatenation. -/
theorem firstSeenDedup_append :
    ∀ (xs ys : List Project) (seen : List (String × Option String)),
      firstSeenDedup (xs ++ ys) seen =
        firstSeenDedup xs seen ++ firstSeenDedup ys (seenAfter xs seen) := by
  intro xs
  induction xs with
  | nil => intro ys seen; simp [firstSeenDedup, seenAfter]
  | cons p rest ih =>
    intro ys seen
    by_cases h : projKey p ∈ seen
    · simp [firstSeenDedup, seenAfter, h, ih]
    · simp [firstSeenDedup, seenAfter, h, ih]

/-- The dedup-insertion loop is first-seen deduplication appended to the
accumulator, with the seen-set advanced accordingly. -/
theorem insertAll_eq :
    ∀ (ps acc : List Project) (seen : List (String × Option String)),
      insertAll ps (acc, seen) =
        (acc ++ firstSeenDedup ps seen, seenAfter ps seen) := by
  intro ps
  induction ps with
  | nil => intro acc seen; simp [insertAll, firstSeenDedup, seenAfter]
  | cons p rest ih =>
    intro acc seen
    by_cases h : projKey p ∈ seen
    · simp [insertAll, firstSeenDedup, seenAfter, h, ih]
    · simp [insertAll, firstSeenDedup, seenAfter, h, ih, List.append_assoc]

/-- The collection loop's accumulator is exactly the first-seen
deduplication of the stream of projects it extracts. -/
theorem collectAllLoop_eq (site : List (List Card)) (dp : DetailSite)
    (base : String) (mp : Option Nat) :
    ∀ (fuel idx pc : Nat) (acc : List Project)
      (seen : List (String × Option String)),
      (collectAllLoop site dp base mp fuel idx pc (acc, seen)).1 =
        (acc ++ firstSeenDedup (visitedStream site dp base mp fuel idx pc) seen,
         seenAfter (visitedStream site dp base mp fuel idx pc) seen) := by
  intro fuel
  induction fuel with
  | zero =>
    intro idx pc acc seen
    simp [collectAllLoop, visitedStream, firstSeenDedup, seenAfter]
  | succ n ih =>
    intro idx pc acc seen
    simp only [collectAllLoop, visitedStream]
    by_cases h1 : maxReached mp (pc + 1) = true
    · simp [h1, insertAll_eq]
    · by_cases h2 : idx + 1 < site.length
      · simp [h1, h2, insertAll_eq, ih, firstSeenDedup_append, seenAfter_append,
          List.append_assoc]
      · simp [h1, h2, insertAll_eq]

/-- Keys of a first-seen deduplication avoid the initial seen-set. -/
theorem firstSeenDedup_not_seen :
    ∀ (ps : List Project) (seen : List (String × Option String))
      (k : String × Option String),
      k ∈ (firstSeenDedup ps seen).map projKey → k ∉ seen := by
  intro ps
  induction ps with
  | nil => intro seen k hk; simp [firstSeenDedup] at hk
  | cons p rest ih =>
    intro seen k hk
    by_cases h : projKey p ∈ seen
    · exact ih seen k (by simpa [firstSeenDedup, h] using hk)
    · simp only [firstSeenDedup] at hk
      rw [if_neg h] at hk
      simp only [List.map_cons, List.mem_cons] at hk
      rcases hk with rfl | hk
      · exact h
      · intro hks
        exact ih _ k hk (by simp [hks])

/-- The keys of a first-seen deduplication contain no duplicates. -/
theorem firstSeenDedup_nodup :
    ∀ (ps : List Project) (seen : List (String × Option String)),
      ((firstSeenDedup ps seen).map projKey).Nodup := by
  intro ps
  induction ps with
  | nil => intro seen; simp [firstSeenDedup]
  | cons p rest ih =>
    intro seen
    by_cases h : projKey p ∈ seen
    · simpa [firstSeenDedup, h] using ih seen
    · simp only [firstSeenDedup]
      rw [if_neg h]
      simp only [List.map_cons, List.nodup_cons]
      refine ⟨fun hmem => ?_, ih _⟩
      exact firstSeenDedup_not_seen rest _ _ hmem (by simp)

/-- C6: over any site, detail-page environment, base URL and page limit,
`collect_all_projects` returns exactly the first-seen deduplication of the
stream of projects it extracts — each entry sits at the position of its
first occurrence, later `(title, link)` duplicates are dropped silently —
and consequently no two returned entries share a `(title, link)` key. -/
theorem collect_all_dedup (site : List (List Card)) (dp : DetailSite)
    (base : String) (mp : Option Nat) :
    collect_all_projects site dp base mp =
      firstSeenDedup (collectedStream site dp base mp) [] ∧
    ((collect_all_projects site dp base mp).map projKey).Nodup := by
  have h := collectAllLoop_eq site dp base mp (site.length + 1) 0 0 [] []
  constructor
  · simp [collect_all_projects, collectedStream, h]
  · simp only [collect_all_projects, collectedStream, h, List.nil_append]
    exact firstSeenDedup_nodup _ _

/-- With a positive page limit `m` and at least `m` pages on the site, the
collection loop entered with page counter `pc < m` performs exactly
`m - pc` further extractions and `m - pc - 1` further advances. -/
theorem collectAllLoop_stats (site : List (List Card)) (dp : DetailSite)
    (base : String) (m : Nat) :
    ∀ (fuel idx pc : Nat) (st : List Project × List (String × Option String)),
      pc < m → m - pc ≤ fuel → idx + (m - pc) ≤ site.length →
      (collectAllLoop site dp base (some m) fuel idx pc st).2 =
        (m - pc, m - pc - 1) := by
  intro fuel
  induction fuel with
  | zero =>
    intro idx pc st h1 h2 h3
    omega
  | succ n ih =>
    intro idx pc st h1 h2 h3
    simp only [collectAllLoop]
    by_cases hm : maxReached (some m) (pc + 1) = true
    · have hpc : m = pc + 1 := by
        simp [maxReached] at hm
        omega
      simp only [hm, if_pos]
      simp only [Prod.mk.injEq]
      omega
    · have hpc : pc + 1 < m := by
        simp [maxReached] at hm
        omega
      have hidx : idx + 1 < site.length := by omega
      simp only [hm, hidx, if_neg, if_pos, Bool.false_eq_true, not_false_eq_true]
      rw [ih (idx + 1) (pc + 1) _ (by omega) (by omega) (by omega)]
      simp only [Prod.mk.injEq]
      omega

/-- C7: for every positive `maxPages = m` and every site with at least `m`
pages, the run performs exactly `m` page-extraction cycles and exactly
`m - 1` (hence at most `m - 1`) successful pagination advances. -/
theorem collect_stats_exact (site : List (List Card)) (dp : DetailSite)
    (base : String) (m : Nat) (h1 : 0 < m) (h2 : m ≤ site.length) :
    collectStats site dp base (some m) = (m, m - 1) ∧
    (collectStats site dp base (some m)).2 ≤ m - 1 := by
  have h := collectAllLoop_stats site dp base m (site.length + 1) 0 0 ([], [])
    (by omega) (by omega) (by omega)
  constructor
  · simpa [collectStats] using h
  · simp [collectStats, h]

/-- C7 witness: five pages available, `maxPages = 2`: exactly 2 extraction
cycles and exactly 1 pagination advance. -/
theorem collect_stats_exact_witness :
    0 < 2 ∧ 2 ≤ (List.replicate 5 ([] : List Card)).length ∧
    collectStats (List.replicate 5 ([] : List Card)) emptySite "b" (some 2) =
      (2, 1) := by
  refine ⟨by decide, by simp, ?_⟩
  exact (collect_stats_exact (List.replicate 5 ([] : List Card)) emptySite "b" 2
    (by decide) (by simp)).1

/-- One `try/except: pass` link of the strategy chain preserves "the
function produces a boolean": the block either returns `True` or hands
control to the continuation, exceptions included. -/
theorem pyTry_ok (x k : Except Unit Bool) (h : ∃ b, k = Except.ok b) :
    ∃ b, pyTry x k = Except.ok b := by
  rcases x with e | v
  · simpa [pyTry] using h
  · cases v
    · simpa [pyTry] using h
    · exact ⟨true, rfl⟩

/-- A `pyTry` chain over any attempts ending in `return False` produces a
boolean. -/
theorem foldr_pyTry_ok :
    ∀ l : List (Except Unit Bool),
      ∃ b, l.foldr pyTry (Except.ok false) = Except.ok b := by
  intro l
  induction l with
  | nil => exact ⟨false, rfl⟩
  | cons x rest ih => exact pyTry_ok x _ ih

/-- C10: for every behaviour of the pagination primitives — any of the
selector lookups, visibility tests, clicks, text reads, URL read or
navigation may raise — `goto_next_page` never propagates an exception: it
always returns a boolean. -/
theorem goto_next_page_total (env : PagEnv) :
    ∃ b, goto_next_page env = Except.ok b := by
  exact foldr_pyTry_ok (strategyAttempts env)

/-- C5 counterexample: a query string with a duplicated parameter.  The
`parse_qs` / `urlencode({k: v[0]})` round trip keeps only the first value of
`a`, so the rewritten URL does not leave every other query parameter
unchanged. -/
theorem rewrite_drops_duplicate_param :
    (rewriteNextUrl
          ⟨"https", "example.test", "/list/", "",
           [("a", "1"), ("a", "2"), ("page", "3")], ""⟩).query =
      [("a", "1"), ("page", "4")] ∧
    ("a", "2") ∈
      (PyUrl.mk "https" "example.test" "/list/" ""
        [("a", "1"), ("a", "2"), ("page", "3")] "").query ∧
    ("a", "2") ∉
      (rewriteNextUrl
          ⟨"https", "example.test", "/list/", "",
           [("a", "1"), ("a", "2"), ("page", "3")], ""⟩).query := by
  refine ⟨by decide, by decide, by decide⟩

/-- On query pairs with pairwise distinct keys and no blank values,
`parse_qs` is the order-preserving wrapping of each value into a singleton
list. -/
theorem parseQSAux_nodup :
    ∀ (pairs : List (String × String)) (acc : List (String × List String)),
      (∀ p ∈ pairs, p.2 ≠ "") →
      (acc.map Prod.fst ++ pairs.map Prod.fst).Nodup →
      parseQSAux pairs acc = acc ++ pairs.map (fun p => (p.1, [p.2])) := by
  intro pairs
  induction pairs with
  | nil => intro acc _ _; simp [parseQSAux]
  | cons kv rest ih =>
    intro acc hnb hnd
    obtain ⟨k, v⟩ := kv
    have hv : ¬ v = "" := hnb (k, v) (by simp)
    have hk : ¬ acc.any (fun p => p.1 = k) = true := by
      intro hany
      obtain ⟨x, hx, hxk⟩ := List.any_eq_true.mp hany
      have hkacc : k ∈ acc.map Prod.fst := by
        simp only [decide_eq_true_eq] at hxk
        exact hxk ▸ List.mem_map_of_mem Prod.fst hx
      have hdisj := (List.nodup_append.mp hnd).2.2
      exact hdisj hkacc (by simp)
    simp only [parseQSAux, if_neg hv, addQS, if_neg hk]
    rw [ih (acc ++ [(k, [v])]) (fun p hp => hnb p (by simp [hp]))
      (by simpa [List.append_assoc] using hnd)]
    simp

/-- `find?` for the `page` key commutes with the singleton wrapping. -/
theorem find?_page_map (l : List (String × String)) :
    (l.map (fun p => (p.1, [p.2]))).find? (fun p => p.1 = "page") =
      (l.find? (fun p => p.1 = "page")).map (fun p => (p.1, [p.2])) := by
  induction l with
  | nil => simp
  | cons p rest ih =>
    by_cases h : p.1 = "page"
    · simp [List.find?, h]
    · simp [List.find?, h, ih]

/-- C5 amended: strategy C's URL rewrite leaves scheme, netloc, path,
params and fragment unchanged, and — on a query whose keys are pairwise
distinct and whose values are non-blank — reads the integer `page`
parameter (default `1` when absent or non-numeric), increments it, and
rewrites only that parameter in place, appending `page=2` when it was
absent.  (Queries with duplicated keys collapse to the first value and
blank-valued parameters are dropped by the `parse_qs`/`urlencode` round
trip.) -/
theorem rewriteNextUrl_clean (u : PyUrl)
    (hnd : (u.query.map Prod.fst).Nodup)
    (hnb : ∀ p ∈ u.query, ¬ p.2 = "") :
    (rewriteNextUrl u).scheme = u.scheme ∧
    (rewriteNextUrl u).netloc = u.netloc ∧
    (rewriteNextUrl u).path = u.path ∧
    (rewriteNextUrl u).params = u.params ∧
    (rewriteNextUrl u).fragment = u.fragment ∧
    (∀ pr, u.query.find? (fun p => p.1 = "page") = some pr →
      (rewriteNextUrl u).query =
        u.query.map (fun p =>
          if p.1 = "page" then (p.1, toString ((pyInt pr.2).getD 1 + 1)) else p)) ∧
    (u.query.find? (fun p => p.1 = "page") = none →
      (rewriteNextUrl u).query = u.query ++ [("page", "2")]) := by
  have hqs : parse_qs u.query = u.query.map (fun p => (p.1, [p.2])) :=
    parseQSAux_nodup u.query [] hnb (by simpa using hnd)
  refine ⟨rfl, rfl, rfl, rfl, rfl, ?_, ?_⟩
  · intro pr hfind
    have hprk : pr.1 = "page" := by
      have := List.find?_some hfind
      simpa using this
    have hfind2 : (parse_qs u.query).find? (fun p => p.1 = "page") =
        some (pr.1, [pr.2]) := by
      rw [hqs, find?_page_map, hfind]
      rfl
    have hany : (parse_qs u.query).any (fun p => p.1 = "page") = true :=
      List.any_eq_true.mpr
        ⟨(pr.1, [pr.2]), List.mem_of_find?_eq_some hfind2, by simp [hprk]⟩
    simp only [rewriteNextUrl, nextPageQuery, setKey]
    rw [hfind2, hany]
    simp only [if_true]
    rw [hqs, List.map_map, List.map_map]
    apply List.map_congr_left
    intro p _
    by_cases hp : p.1 = "page"
    · simp [Function.comp, hp]
    · simp [Function.comp, hp]
  · intro hfind
    have hfind2 : (parse_qs u.query).find? (fun p => p.1 = "page") = none := by
      rw [hqs, find?_page_map, hfind]
      rfl
    have hany : (parse_qs u.query).any (fun p => p.1 = "page") = false := by
      rw [List.any_eq_false]
      intro x hx
      exact List.find?_eq_none.mp hfind2 x hx
    simp only [rewriteNextUrl, nextPageQuery, setKey]
    rw [hfind2, hany]
    simp only [Bool.false_eq_true, if_false]
    rw [List.map_append, hqs, List.map_map]
    congr 1
    rw [show ((fun (p : String × List String) => (p.1, p.2.headD "")) ∘
        fun (p : String × String) => (p.1, [p.2])) = id from rfl]
    exact List.map_id u.query

/-- C5 witness: `?page=3` rewrites to `?page=4` and an empty query gains
`page=2`, with the path left unchanged. -/
theorem rewriteNextUrl_clean_witness :
    (rewriteNextUrl
        ⟨"https", "example.test", "/list/", "", [("page", "3")], ""⟩).query =
      [("page", "4")] ∧
    (rewriteNextUrl
        ⟨"https", "example.test", "/list/", "", [("page", "3")], ""⟩).path =
      "/list/" ∧
    (rewriteNextUrl ⟨"https", "example.test", "/list/", "", [], ""⟩).query =
      [("page", "2")] := by
  have h1 := rewriteNextUrl_clean
    ⟨"https", "example.test", "/list/", "", [("page", "3")], ""⟩
    (by decide) (by decide)
  have h2 := rewriteNextUrl_clean
    ⟨"https", "example.test", "/list/", "", [], ""⟩
    (by decide) (by decide)
  refine ⟨?_, h1.2.2.1, ?_⟩
  · rw [h1.2.2.2.2.2.1 ("page", "3") (by decide)]
    decide
  · rw [h2.2.2.2.2.2.2 (by decide)]
    decide

end FreelanceHub
